import Mathlib

/-!
Verification of the bamboo Minecraft server against its specification.

Each section shallowly embeds one component of the Rust source:

* player registry and duplicate-UUID handling (src/server/src/world/mod.rs, World::new_player)
* chunk storage (src/server/src/world/mod.rs, World::store_chunks)
* movement-delta encoding (src/server/src/player/mod.rs, Player::tick)
* view-ring chunk streaming (src/server/src/player/mod.rs, Player::tick / load_chunks)
* frame reading on the proxy (src/proxy/src/java/stream.rs, JavaStreamReader)
* cross-version id conversion (src/sc_proxy/src/packet/conv.rs, TypeConverter)
* light propagation (src/bb_server/src/block/light/mod.rs)
* the effect of Player::disconnect (src/server/src/player/mod.rs)

Machine integers are embedded as Nat/Int; f64 deltas are embedded as rationals,
which is exact for every operation the movement code performs (multiplication
by a power of two, comparison against an integer bound, and round-half-away-
from-zero are all exact on binary floating-point values, and every f64 value
is a rational).
-/

namespace Bamboo

/-! ## Player registry (World::new_player, src/server/src/world/mod.rs lines 135-164)

PlayersMap lives in src/server/src/world/players.rs, which is not part of the
provided sources. Modelled from the spec: a map from UUID to player with
contains_key and insert (spec section 5, shared-resource policy: a single
mutex-protected map keyed by UUID). It is embedded as an association list
whose insert replaces any existing binding for the key. -/

/-- UUID, embedded as a natural number. -/
abbrev UUID := Nat

/-- The fields of Player that the registry logic inspects: its UUID (id()) and
its entity id, which stands in for the identity of its connection, so that we
can tell WHICH of two same-UUID players received a packet. -/
structure PlayerRec where
  uuid : Nat
  eid  : Int
deriving DecidableEq, Repr

/-- PlayersMap, modelled from the spec as an association list from UUID to player. -/
def PlayersMap := List (Nat × PlayerRec)

/-- HashMap::contains_key on the modelled association list. -/
def PlayersMap.containsKey (m : PlayersMap) (k : Nat) : Bool :=
  m.any (fun e => e.1 == k)

/-- HashMap::insert on the modelled association list: replaces any existing binding. -/
def PlayersMap.insertP (m : PlayersMap) (k : Nat) (v : PlayerRec) : PlayersMap :=
  (k, v) :: m.filter (fun e => e.1 != k)

/-- HashMap lookup on the modelled association list. -/
def PlayersMap.lookup (m : PlayersMap) (k : Nat) : Option PlayerRec :=
  (m.find? (fun e => e.1 == k)).map (fun e => e.2)

/-- The kick message used by World::new_player for a duplicate UUID
(src/server/src/world/mod.rs line 141). -/
def dupIdMsg : String := "Another player with the same id is already connected!"

/-- World::new_player (src/server/src/world/mod.rs lines 135-164), restricted to
its effect on the player map and on connections. It returns the updated map and
the list of (eid, message) disconnects it performed. The source locks the map;
if it contains the new player's id it disconnects THE ARGUMENT player and
returns without inserting; otherwise it inserts the argument player. -/
def newPlayer (m : PlayersMap) (p : PlayerRec) : PlayersMap × List (Int × String) :=
  if m.containsKey p.uuid then
    (m, [(p.eid, dupIdMsg)])
  else
    (m.insertP p.uuid p, [])

/-! ## Chunk map storage (World::store_chunks, src/server/src/world/mod.rs lines 258-263) -/

/-- ChunkPos, from common::math (declared outside the provided sources; the spec
defines it as a pair of integers). -/
structure ChunkPos where
  x : Int
  z : Int
deriving DecidableEq, Repr

/-- World::store_chunks: iterates the list and inserts every (pos, chunk) pair
into the chunk map, in order. The map is embedded as a function to Option. -/
def storeChunks {α : Type} (m : ChunkPos → Option α) (chunks : List (ChunkPos × α)) :
    ChunkPos → Option α :=
  chunks.foldl (fun acc e => fun q => if q = e.1 then some e.2 else acc q) m

/-- The last pair of the list whose position equals p, if any: this is the pair
whose chunk wins after all the inserts. -/
def lastEntryAt {α : Type} (chunks : List (ChunkPos × α)) (p : ChunkPos) :
    Option (ChunkPos × α) :=
  chunks.reverse.find? (fun e => decide (e.1 = p))

/-! ## Movement encoding (Player::tick, src/server/src/player/mod.rs lines 282-349)

The deltas dx, dy, dz are the f64 values curr - prev computed by the source.
They are embedded as rationals. Every subsequent operation of the source is
exact on binary floating-point numbers, so the embedding over the dyadic
rationals is faithful: multiplying by 32.0 or 4096.0 only changes the
exponent, comparing against 127.0 or 32767.0 is exact, and f64::round is
round-half-away-from-zero. -/

/-- Protocol versions, from common::version (declared outside the provided
sources; per the spec a totally ordered enum, of which the movement code only
distinguishes V1_8 from the rest). -/
inductive ProtocolVersion where
  | v1_8
  | v1_9
  | v1_12_2
  | v1_14
  | v1_16
  | v1_16_2
  | v1_16_5
deriving DecidableEq, Repr

/-- Rust's f64::round, which rounds half away from zero. -/
def rustRound (q : ℚ) : ℤ :=
  if 0 ≤ q then ⌊q + 1 / 2⌋ else ⌈q - 1 / 2⌉

/-- Result of the movement-encoding branch of Player::tick for one observer.
teleport corresponds to sending cb::Packet::EntityTeleport with the absolute
current position; relMove corresponds to a relative-move packet
(RelEntityMove or EntityMoveLook) carrying the version-split delta fields
d_x_v1_8..d_z_v1_9, which the source initializes to 0 and fills only for the
observer's version family. -/
inductive MoveEnc where
  | teleport (x y z : ℚ)
  | relMove (d_x_v1_8 d_y_v1_8 d_z_v1_8 d_x_v1_9 d_y_v1_9 d_z_v1_9 : Int)
deriving DecidableEq, Repr

/-- The delta-encoding logic of Player::tick (src/server/src/player/mod.rs
lines 282-349), for one observer of version ver: on V1_8 the deltas are scaled
by 32 and compared against i8::MAX = 127; otherwise scaled by 4096 and
compared against i16::MAX = 32767. If any axis exceeds the bound the absolute
EntityTeleport is sent, else the rounded scaled deltas are sent. cx, cy, cz
are the player's absolute current position (pos.curr). -/
def encodeMovement (ver : ProtocolVersion) (cx cy cz dx0 dy0 dz0 : ℚ) : MoveEnc :=
  if ver = ProtocolVersion.v1_8 then
    let dx := dx0 * 32
    let dy := dy0 * 32
    let dz := dz0 * 32
    if 127 < |dx| ∨ 127 < |dy| ∨ 127 < |dz| then
      MoveEnc.teleport cx cy cz
    else
      MoveEnc.relMove (rustRound dx) (rustRound dy) (rustRound dz) 0 0 0
  else
    let dx := dx0 * 4096
    let dy := dy0 * 4096
    let dz := dz0 * 4096
    if 32767 < |dx| ∨ 32767 < |dy| ∨ 32767 < |dz| then
      MoveEnc.teleport cx cy cz
    else
      MoveEnc.relMove 0 0 0 (rustRound dx) (rustRound dy) (rustRound dz)

/-! ## View-ring chunk streaming (Player::tick chunk part and Player::load_chunks,
src/server/src/player/mod.rs lines 393-513)

Player::load_chunks and unload_chunks iterate x in min.x()..max.x() and
z in min.z()..max.z(), both half-open. -/

/-- Rectangle handed to load_chunks / unload_chunks: min and max corner. -/
structure ChunkRect where
  mn : ChunkPos
  mx : ChunkPos
deriving DecidableEq, Repr

/-- Membership in the half-open iteration range min.x()..max.x() times
min.z()..max.z() of load_chunks / unload_chunks. -/
def inChunkRect (r : ChunkRect) (p : ChunkPos) : Prop :=
  r.mn.x ≤ p.x ∧ p.x < r.mx.x ∧ r.mn.z ≤ p.z ∧ p.z < r.mx.z

instance (r : ChunkRect) (p : ChunkPos) : Decidable (inChunkRect r p) := by
  unfold inChunkRect
  infer_instance

/-- The first (sides including corners) load/unload rectangles of Player::tick,
from the match on delta.x().cmp(&0): Greater, Less, and the zero case. -/
def sideStrips (oldc newc : ChunkPos) (vd : Int) : ChunkRect × ChunkRect :=
  let dxz : Int := newc.x - oldc.x
  let new_tl : ChunkPos := ⟨newc.x - vd, newc.z - vd⟩
  let new_br : ChunkPos := ⟨newc.x + vd, newc.z + vd⟩
  let old_tl : ChunkPos := ⟨oldc.x - vd, oldc.z - vd⟩
  let old_br : ChunkPos := ⟨oldc.x + vd, oldc.z + vd⟩
  if 0 < dxz then
    (⟨⟨old_br.x, new_tl.z⟩, new_br⟩, ⟨old_tl, ⟨new_tl.x, old_br.z⟩⟩)
  else if dxz < 0 then
    (⟨new_tl, ⟨old_tl.x, new_br.z⟩⟩, ⟨⟨new_br.x, old_tl.z⟩, old_br⟩)
  else
    (⟨⟨0, 0⟩, ⟨0, 0⟩⟩, ⟨⟨0, 0⟩, ⟨0, 0⟩⟩)

/-- The second (top/bottom excluding corners) load/unload rectangles of
Player::tick, from the match on delta.z().cmp(&0). -/
def topStrips (oldc newc : ChunkPos) (vd : Int) : ChunkRect × ChunkRect :=
  let dz : Int := newc.z - oldc.z
  let new_tl : ChunkPos := ⟨newc.x - vd, newc.z - vd⟩
  let new_br : ChunkPos := ⟨newc.x + vd, newc.z + vd⟩
  let old_tl : ChunkPos := ⟨oldc.x - vd, oldc.z - vd⟩
  let old_br : ChunkPos := ⟨oldc.x + vd, oldc.z + vd⟩
  if 0 < dz then
    (⟨⟨new_tl.x, old_br.z⟩, ⟨min new_br.x old_br.x, new_br.z⟩⟩,
     ⟨⟨max new_tl.x old_tl.x, old_tl.z⟩, ⟨old_br.x, new_tl.z⟩⟩)
  else if dz < 0 then
    (⟨⟨max old_tl.x new_tl.x, new_tl.z⟩, ⟨new_br.x, old_tl.z⟩⟩,
     ⟨⟨old_tl.x, new_br.z⟩, ⟨min old_br.x new_br.x, old_br.z⟩⟩)
  else
    (⟨⟨0, 0⟩, ⟨0, 0⟩⟩, ⟨⟨0, 0⟩, ⟨0, 0⟩⟩)

/-- The set of chunk positions loaded by one Player::tick whose chunk changed
from oldc to newc, with the source's hardcoded view_distance = 10. -/
def tickLoadSet (oldc newc p : ChunkPos) : Prop :=
  inChunkRect (sideStrips oldc newc 10).1 p ∨ inChunkRect (topStrips oldc newc 10).1 p

/-- The set of chunk positions unloaded by one Player::tick whose chunk changed
from oldc to newc, with view_distance = 10. -/
def tickUnloadSet (oldc newc p : ChunkPos) : Prop :=
  inChunkRect (sideStrips oldc newc 10).2 p ∨ inChunkRect (topStrips oldc newc 10).2 p

instance (oldc newc p : ChunkPos) : Decidable (tickLoadSet oldc newc p) := by
  unfold tickLoadSet
  infer_instance

instance (oldc newc p : ChunkPos) : Decidable (tickUnloadSet oldc newc p) := by
  unfold tickUnloadSet
  infer_instance

/-- The half-open 20 x 20 view rectangle around a center chunk that the tick's
strip computation is consistent with (and that the initial 20 x 20 spawn ring
of the spec uses): x and z within [center - 10, center + 10). -/
def inView20 (ctr p : ChunkPos) : Prop :=
  ctr.x - 10 ≤ p.x ∧ p.x < ctr.x + 10 ∧ ctr.z - 10 ≤ p.z ∧ p.z < ctr.z + 10

instance (ctr p : ChunkPos) : Decidable (inView20 ctr p) := by
  unfold inView20
  infer_instance

/-! ## Frame reading (JavaStreamReader, src/proxy/src/java/stream.rs lines 62-113)

The varint codec common::util::read_varint and common::util::Buffer are
declared outside the provided sources. Modelled from the spec, section 4.1:
varints are 7-bit little-endian groups with a continuation bit on the MSB,
capped at 5 bytes; read_varint returns (value, consumed) with consumed = 0 on
incomplete input and a negative sentinel on a varint longer than the cap. -/

/-- Reinterpretation of a natural number as a 32-bit two's-complement value,
as the Rust codec truncates the accumulated groups into an i32. -/
def toI32 (n : Nat) : Int :=
  if n % 2 ^ 32 < 2 ^ 31 then ((n % 2 ^ 32 : Nat) : Int)
  else ((n % 2 ^ 32 : Nat) : Int) - 2 ^ 32

/-- Modelled from the spec: the loop of common::util::read_varint. i is the
index of the current byte, acc the bits accumulated so far. Stops with
consumed = i + 1 on the first byte with a clear MSB, consumed = 0 when the
input ends first, and the negative sentinel when five bytes all have the MSB
set. -/
def readVarintLoop : List Nat → Nat → Nat → Int × Int
  | [], _, _ => (0, 0)
  | b :: rest, i, acc =>
    let acc2 := acc + b % 128 * 2 ^ (7 * i)
    if b < 128 then (toI32 acc2, (i : Int) + 1)
    else if i + 1 = 5 then (0, -1)
    else readVarintLoop rest (i + 1) acc2

/-- Modelled from the spec: common::util::read_varint on a byte sequence. -/
def read_varint (bs : List Nat) : Int × Int :=
  readVarintLoop bs 0 0

/-- The io::ErrorKind values produced by the read path. -/
inductive ReadErr where
  | invalidData
  | connectionAborted
deriving DecidableEq, Repr

/-- JavaStreamReader::poll (src/proxy/src/java/stream.rs lines 64-77) with the
cipher disabled: a zero-byte socket read is ConnectionAborted, otherwise the
bytes are appended to the ring buffer. The optional CFB-8 decryption, a
byte-wise bijection applied before buffering, is irrelevant to the claims and
elided. -/
def pollRead (incoming buffered : List Nat) : Except ReadErr (List Nat) :=
  if incoming.isEmpty then Except.error ReadErr.connectionAborted
  else Except.ok (buffered ++ incoming)

/-- JavaStreamReader::read (src/proxy/src/java/stream.rs lines 78-113). buf is
the current ring-buffer content; inflate is miniz_oxide's
decompress_to_vec_zlib (an external collaborator, kept as a parameter, none
standing for a zlib failure); the Packet::from_buf parse is represented by the
byte buffer handed to it. Returns the optional parse buffer together with the
ring-buffer content left behind. The pop_slice into vec![0; len] keeps
trailing zeroes when fewer than len bytes remain after the length prefix,
exactly as the ringbuf pop does. -/
def readFrame (compression : Nat) (inflate : List Nat → Option (List Nat))
    (buf : List Nat) : Except ReadErr (Option (List Nat) × List Nat) :=
  let lr := read_varint buf
  if lr.2 < 0 then Except.error ReadErr.invalidData
  else if lr.2 = 0 ∨ (buf.length : Int) < lr.1 then Except.ok (none, buf)
  else
    let rest := buf.drop lr.2.toNat
    let n := lr.1.toNat
    let vec := rest.take n ++ List.replicate (n - rest.length) 0
    let buf2 := rest.drop n
    if compression ≠ 0 then
      let ur := read_varint vec
      let body := vec.drop ur.2.toNat
      if ur.1 = 0 then Except.ok (some body, buf2)
      else
        match inflate body with
        | none => Except.error ReadErr.invalidData
        | some d => Except.ok (some d, buf2)
    else Except.ok (some vec, buf2)

/-! ## Cross-version id conversion (TypeConverter, src/sc_proxy/src/packet/conv.rs
lines 58-145)

The per-version tables are build artifacts included from OUT_DIR and are not
part of the provided sources. Modelled from the spec, section 4.4: three
tables keyed by version, where the generated data maps air (id 0) to 0 in
both directions. BlockVersion is embedded as its to_index() value, with the
latest version passed alongside. The Rust code indexes blocks[ver.to_index()]
directly (panicking on an unsupported version); the embedding uses getD with
an empty table, and the theorems are only about supported versions. -/

/-- Per-version block id table (module block in conv.rs). -/
structure BlockVerTable where
  to_old : List Nat
  to_new : List Nat

/-- Per-version item id table (module item in conv.rs): to_new is indexed by
old id then damage; to_old yields (old id, damage). -/
structure ItemVerTable where
  to_old : List (Nat × Nat)
  to_new : List (List Nat)

/-- Per-version entity id table (module entity in conv.rs). -/
structure EntityVerTable where
  to_old : List Nat
  to_new : List Nat

/-- TypeConverter (conv.rs lines 3-7). -/
structure TypeConverter where
  blocks : List BlockVerTable
  items : List ItemVerTable
  entities : List EntityVerTable

/-- TypeConverter::block_to_new (conv.rs lines 63-76). -/
def block_to_new (tc : TypeConverter) (latest : Nat) (id ver : Nat) : Nat :=
  if id = 0 then 0
  else if ver = latest then id
  else
    match (tc.blocks.getD ver ⟨[], []⟩).to_new[id]? with
    | some v => v
    | none => 0

/-- TypeConverter::block_to_old (conv.rs lines 80-88). -/
def block_to_old (tc : TypeConverter) (latest : Nat) (id ver : Nat) : Nat :=
  if ver = latest then id
  else
    match (tc.blocks.getD ver ⟨[], []⟩).to_old[id]? with
    | some v => v
    | none => 0

/-- TypeConverter::item_to_new (conv.rs lines 92-105). -/
def item_to_new (tc : TypeConverter) (latest : Nat) (id damage ver : Nat) : Nat :=
  if id = 0 then 0
  else if ver = latest then id
  else
    match (tc.items.getD ver ⟨[], []⟩).to_new[id]? with
    | some v => (v[damage]?).getD 0
    | none => 0

/-- TypeConverter::item_to_old (conv.rs lines 108-116). -/
def item_to_old (tc : TypeConverter) (latest : Nat) (id ver : Nat) : Nat × Nat :=
  if ver = latest then (id, 0)
  else ((tc.items.getD ver ⟨[], []⟩).to_old[id]?).getD (0, 0)

/-- TypeConverter::entity_to_new (conv.rs lines 120-133). -/
def entity_to_new (tc : TypeConverter) (latest : Nat) (id ver : Nat) : Nat :=
  if id = 0 then 0
  else if ver = latest then id
  else
    match (tc.entities.getD ver ⟨[], []⟩).to_new[id]? with
    | some v => v
    | none => 0

/-- TypeConverter::entity_to_old (conv.rs lines 136-144). -/
def entity_to_old (tc : TypeConverter) (latest : Nat) (id ver : Nat) : Nat :=
  if ver = latest then id
  else
    match (tc.entities.getD ver ⟨[], []⟩).to_old[id]? with
    | some v => v
    | none => 0

/-- The spec's well-formedness of the generated tables, section 4.4: air
(id 0) maps to 0 in both directions. Only the to_old direction needs it
explicitly, since the to_new functions special-case id 0. -/
def airWellFormed (tc : TypeConverter) : Prop :=
  (∀ t ∈ tc.blocks, (t.to_old[0]?).getD 0 = 0) ∧
  (∀ t ∈ tc.items, (t.to_old[0]?).getD (0, 0) = (0, 0)) ∧
  (∀ t ∈ tc.entities, (t.to_old[0]?).getD 0 = 0)

/-! ## Light engine (src/bb_server/src/block/light/mod.rs)

RelPos, Face and LightChunk live in bb_common, outside the provided sources.
Modelled from the spec: chunk-relative positions are (0..15, 0..255, 0..15);
checked_add leaves the chunk column horizontally at none (the y bound is
re-checked by the light code itself, as in the source); LightChunk stores a
4-bit value (0..15) per cell, embedded as a total map with the 0..15 range
carried as hypotheses. The chunk contents are abstracted to the three
per-position facts the light code reads through the block converter. -/

/-- Chunk-relative position (bb_common::math::RelPos). -/
structure RelPos where
  x : Int
  y : Int
  z : Int
deriving DecidableEq, Repr

/-- Block face (bb_common::util::Face); only used as a direction offset here. -/
inductive Face where
  | top
  | bottom
  | north
  | south
  | east
  | west
deriving DecidableEq, Repr

/-- Unit offset of a face: top is +y, bottom is -y, north is -z, south is +z,
east is +x, west is -x. -/
def faceDelta : Face → Int × Int × Int
  | Face.top => (0, 1, 0)
  | Face.bottom => (0, -1, 0)
  | Face.north => (0, 0, -1)
  | Face.south => (0, 0, 1)
  | Face.east => (1, 0, 0)
  | Face.west => (-1, 0, 0)

/-- The position one step in the direction of a face. -/
def faceOffset (p : RelPos) (f : Face) : RelPos :=
  ⟨p.x + (faceDelta f).1, p.y + (faceDelta f).2.1, p.z + (faceDelta f).2.2⟩

/-- Modelled from the spec: RelPos::checked_add, which fails when the offset
position leaves the 16 x 16 chunk column. -/
def RelPos.checkedAdd (p : RelPos) (f : Face) : Option RelPos :=
  if 0 ≤ (faceOffset p f).x ∧ (faceOffset p f).x ≤ 15 ∧
      0 ≤ (faceOffset p f).z ∧ (faceOffset p f).z ≤ 15 then
    some (faceOffset p f)
  else none

/-- The direction list from the update functions (light/mod.rs lines 22 and 65). -/
def lightDirections : List Face :=
  [Face.top, Face.bottom, Face.north, Face.south, Face.east, Face.west]

/-- A chunk's blocks as the light engine reads them: for each position, whether
get_kind is Kind::Air, and the transparent and emit_light fields the block
converter stores for the kind. -/
structure BlockData where
  isAir : RelPos → Bool
  transparent : RelPos → Bool
  emitLight : RelPos → Nat

/-- Modelled from the spec: the stored light grid of a LightChunk. -/
def Light := RelPos → Nat

/-- LightChunk::set_light on the modelled grid. -/
def setLight (l : Light) (p : RelPos) (v : Nat) : Light :=
  fun q => if q = p then v else l q

/-- In-chunk bounds for a cell: x and z inside the column, 0 <= y <= 255. -/
def inChunkB (p : RelPos) : Prop :=
  0 ≤ p.x ∧ p.x ≤ 15 ∧ 0 ≤ p.y ∧ p.y ≤ 255 ∧ 0 ≤ p.z ∧ p.z ≤ 15

instance (p : RelPos) : Decidable (inChunkB p) := by
  unfold inChunkB
  infer_instance

/-- Cells the block-light BFS may propagate into (light/mod.rs line 41):
kind == block::Kind::Air or data.transparent. -/
def blockPropagatable (c : BlockData) (p : RelPos) : Prop :=
  c.isAir p = true ∨ c.transparent p = true

instance (c : BlockData) (p : RelPos) : Decidable (blockPropagatable c p) := by
  unfold blockPropagatable
  infer_instance

/-- Two cells are face-adjacent: b is one step from a in one of the six
directions. -/
def adjacentPos (a b : RelPos) : Prop :=
  b = faceOffset a Face.top ∨ b = faceOffset a Face.bottom ∨
  b = faceOffset a Face.north ∨ b = faceOffset a Face.south ∨
  b = faceOffset a Face.east ∨ b = faceOffset a Face.west

instance (a b : RelPos) : Decidable (adjacentPos a b) := by
  unfold adjacentPos
  infer_instance

/-- The one-sided adjacency bound on a light grid: across every face-adjacent
in-chunk pair of propagatable cells the stored light drops by at most one.
Stated one-sided over ordered pairs; both orders together give the absolute
bound of the spec. -/
def lightLipB (c : BlockData) (light : Light) : Prop :=
  ∀ a b, adjacentPos a b → inChunkB a → inChunkB b → blockPropagatable c a →
    blockPropagatable c b → light a ≤ light b + 1

/-- The invariant carried through the block-light BFS: every pending level is
bounded by the light stored at the seed, and every adjacency violation of the
current grid is covered by a pending queue element at the brighter cell with
at least its brightness. -/
def lipPendingB (c : BlockData) (seed : RelPos) (light : Light)
    (pending : List (RelPos × Nat)) : Prop :=
  (∀ e ∈ pending, e.2 ≤ light seed) ∧
  (∀ a b, adjacentPos a b → inChunkB a → inChunkB b → blockPropagatable c a →
    blockPropagatable c b → light b + 1 < light a →
    ∃ e ∈ pending, e.1 = a ∧ light a ≤ e.2)

/-- One direction of the inner loop of BlockLightChunk::update (light/mod.rs
lines 31-49): the state is the light grid plus the other_queue accumulated so
far. -/
def blockVisit (c : BlockData) (source : RelPos) (emitted : Nat)
    (st : Light × List (RelPos × Nat)) (dir : Face) : Light × List (RelPos × Nat) :=
  match source.checkedAdd dir with
  | none => st
  | some np =>
    if np.y < 0 ∨ 255 < np.y then st
    else if c.isAir np || c.transparent np then
      if 1 ≤ emitted ∧ st.1 np < emitted - 1 then
        (setLight st.1 np (emitted - 1), st.2 ++ [(np, emitted - 1)])
      else st
    else st

/-- Processing of one queue element (source, emitted) of
BlockLightChunk::update: the source first raises the light at pos (the seed
argument of update, not at source) when emitted exceeds it, then visits the
six directions. -/
def blockElem (c : BlockData) (pos : RelPos) (st : Light × List (RelPos × Nat))
    (e : RelPos × Nat) : Light × List (RelPos × Nat) :=
  let st1 := if st.1 pos < e.2 then (setLight st.1 pos e.2, st.2) else st
  lightDirections.foldl (blockVisit c e.1 e.2) st1

/-- One iteration of the while loop of BlockLightChunk::update: process every
element of queue into a fresh other_queue. -/
def blockRound (c : BlockData) (pos : RelPos) (light : Light)
    (queue : List (RelPos × Nat)) : Light × List (RelPos × Nat) :=
  queue.foldl (blockElem c pos) (light, [])

/-- The while loop of BlockLightChunk::update, run for at most fuel rounds.
Every element pushed in a round carries level emitted - 1 of its source
element, so the loop quiesces after at most 16 rounds for 4-bit light values;
the theorems below only depend on rounds the fuel actually covers. -/
def blockRounds (c : BlockData) (pos : RelPos) :
    Nat → Light → List (RelPos × Nat) → Light × List (RelPos × Nat)
  | 0, light, queue => (light, queue)
  | Nat.succ n, light, queue =>
    if queue.isEmpty then (light, queue)
    else
      let st := blockRound c pos light queue
      blockRounds c pos n st.1 st.2

/-- BlockLightChunk::update (light/mod.rs lines 21-54): seed the queue with
(pos, emit_light of the block at pos) and run to quiescence. -/
def blockLightUpdate (c : BlockData) (pos : RelPos) (light : Light) : Light :=
  (blockRounds c pos 16 light [(pos, c.emitLight pos)]).1

/-- One direction of the inner loop of SkyLightChunk::update (light/mod.rs
lines 74-91): a transparent neighbor straight down is re-enqueued at the same
level without a light write; any other transparent neighbor dimmer than
level - 1 is set to level - 1 and re-enqueued, also at the same level. -/
def skyVisit (c : BlockData) (source : RelPos) (level : Nat)
    (st : Light × List (RelPos × Nat)) (dir : Face) : Light × List (RelPos × Nat) :=
  match source.checkedAdd dir with
  | none => st
  | some np =>
    if np.y < 0 ∨ 255 < np.y then st
    else if c.transparent np then
      if dir = Face.bottom then (st.1, st.2 ++ [(np, level)])
      else if st.1 np < level - 1 then
        (setLight st.1 np (level - 1), st.2 ++ [(np, level)])
      else st
    else st

/-- Processing of one queue element of SkyLightChunk::update: level 0 elements
are skipped. -/
def skyElem (c : BlockData) (st : Light × List (RelPos × Nat))
    (e : RelPos × Nat) : Light × List (RelPos × Nat) :=
  if e.2 = 0 then st else lightDirections.foldl (skyVisit c e.1 e.2) st

/-- One iteration of the while loop of SkyLightChunk::update. -/
def skyRound (c : BlockData) (light : Light) (queue : List (RelPos × Nat)) :
    Light × List (RelPos × Nat) :=
  queue.foldl (skyElem c) (light, [])

/-- The while loop of SkyLightChunk::update, run for at most fuel rounds,
returning the grid and the queue so quiescence (an empty queue) is visible. -/
def skyRounds (c : BlockData) :
    Nat → Light → List (RelPos × Nat) → Light × List (RelPos × Nat)
  | 0, light, queue => (light, queue)
  | Nat.succ n, light, queue =>
    if queue.isEmpty then (light, queue)
    else
      let st := skyRound c light queue
      skyRounds c n st.1 st.2

/-- SkyLightChunk::update (light/mod.rs lines 64-96) run for fuel rounds: the
queue is seeded with (pos, stored light at pos). -/
def skyLightUpdate (c : BlockData) (pos : RelPos) (light : Light) (fuel : Nat) :
    Light × List (RelPos × Nat) :=
  skyRounds c fuel light [(pos, light pos)]

/-! ## The effect of Player::disconnect (src/server/src/player/mod.rs lines 222-226)

Player::disconnect's body is a single self.conn().send(KickDisconnect).
Connection::send (src/server/src/net/mod.rs lines 50-53) enqueues the packet
on that connection's sender and touches nothing else; in particular it does
not store to the closed flag. The packet queue of a connection and the world
state surrounding the player are made explicit so the frame is visible. -/

/-- Clientbound packets as far as this claim needs them. -/
inductive CbPacketK where
  | kickDisconnect (reason : String)
  | other (tag : Nat)
deriving DecidableEq, Repr

/-- A connection: the packets queued on its sender, and its closed flag. -/
structure ConnSt where
  sent : List CbPacketK
  closed : Bool
deriving DecidableEq, Repr

/-- Connection::send: enqueue one packet. -/
def ConnSt.sendPacket (c : ConnSt) (p : CbPacketK) : ConnSt :=
  { c with sent := c.sent ++ [p] }

/-- The per-player state surrounding a disconnect call. -/
structure PlayerFull where
  uuid : Nat
  eid : Int
  posX : ℚ
  posY : ℚ
  posZ : ℚ
  inv : List Nat
  conn : ConnSt
deriving DecidableEq, Repr

/-- World state as far as Player::disconnect could reach it. -/
structure WorldSt where
  players : List PlayerFull
  chunks : List (ChunkPos × Nat)
deriving DecidableEq, Repr

/-- Player::disconnect(msg) of the player with the given eid, lifted to the
world state: the single conn().send(cb::Packet::KickDisconnect) of the source. -/
def playerDisconnect (w : WorldSt) (eid : Int) (msg : String) : WorldSt :=
  { w with
    players := w.players.map (fun q =>
      if q.eid = eid then { q with conn := q.conn.sendPacket (CbPacketK.kickDisconnect msg) }
      else q) }

/-! ## Theorems -/

theorem storeChunks_cons {α : Type} (m : ChunkPos → Option α) (e : ChunkPos × α)
    (t : List (ChunkPos × α)) :
    storeChunks m (e :: t) =
      storeChunks (fun q => if q = e.1 then some e.2 else m q) t := by
  simp [storeChunks, List.foldl_cons]

theorem find?_append_helper {α : Type} (l₁ l₂ : List α) (f : α → Bool) :
    (l₁ ++ l₂).find? f =
      match l₁.find? f with
      | some v => some v
      | none => l₂.find? f := by
  induction l₁ with
  | nil => simp
  | cons a t ih =>
    by_cases ha : f a
    · simp [List.find?, ha]
    · simp only [List.cons_append, List.find?]
      rw [Bool.not_eq_true] at ha
      rw [ha]
      exact ih

theorem storeChunks_eq {α : Type} (m : ChunkPos → Option α) (chunks : List (ChunkPos × α))
    (p : ChunkPos) :
    storeChunks m chunks p =
      match lastEntryAt chunks p with
      | some e => some e.2
      | none => m p := by
  induction chunks generalizing m with
  | nil => simp [storeChunks, lastEntryAt]
  | cons e t ih =>
    rw [storeChunks_cons, ih]
    unfold lastEntryAt
    rw [List.reverse_cons, find?_append_helper]
    rcases h : t.reverse.find? (fun q => decide (q.1 = p)) with _ | v
    · rw [h]
      simp only [List.find?]
      by_cases he : e.1 = p
      · subst he
        simp
      · have hne : p ≠ e.1 := fun hh => he hh.symm
        simp [he, hne]
    · rw [h]

/-- C10: World::store_chunks unconditionally inserts every given (pos, chunk)
pair into the chunk map, overwriting any chunk already stored at that position,
and map entries for positions not in the list are unchanged: the resulting map
at p is the last listed chunk for p when one exists (irrespective of what the
map held before, so a chunk mutated by set_block is replaced when a chunk-ring
load regenerates the position), and the prior entry otherwise. -/
theorem storeChunks_overwrites {α : Type} (m : ChunkPos → Option α)
    (chunks : List (ChunkPos × α)) (p : ChunkPos) :
    storeChunks m chunks p =
      match lastEntryAt chunks p with
      | some e => some e.2
      | none => m p :=
  storeChunks_eq m chunks p

/-- C1 counterexample: with a player of UUID 77 (eid 1) already in the map, a
second connection with the same UUID 77 (eid 2) is itself disconnected with the
duplicate-id message; the map still holds the first player, not the second, so
the claim that the prior player is disconnected and only the newer one remains
is false on World::new_player. -/
theorem newPlayer_dup_counterexample :
    (newPlayer [(77, (⟨77, 1⟩ : PlayerRec))] ⟨77, 2⟩).2 = [((2 : Int), dupIdMsg)] ∧
    PlayersMap.lookup (newPlayer [(77, (⟨77, 1⟩ : PlayerRec))] ⟨77, 2⟩).1 77 =
      some ⟨77, 1⟩ ∧
    (⟨77, 1⟩ : PlayerRec) ≠ ⟨77, 2⟩ := by
  refine ⟨rfl, rfl, by decide⟩

/-- C1 amended: when a second player connects with a UUID already present in
the world's player map, World::new_player disconnects the NEW player with the
message "Another player with the same id is already connected!" and returns
without inserting it, so the previously-connected player remains in the player
map unchanged. -/
theorem newPlayer_dup_keeps_existing (m : PlayersMap) (p : PlayerRec)
    (h : m.containsKey p.uuid = true) :
    newPlayer m p = (m, [(p.eid, dupIdMsg)]) := by
  simp [newPlayer, h]

/-- Witness for newPlayer_dup_keeps_existing at a concrete map and player. -/
theorem newPlayer_dup_keeps_existing_witness :
    PlayersMap.containsKey [(77, (⟨77, 1⟩ : PlayerRec))] 77 = true ∧
    newPlayer [(77, (⟨77, 1⟩ : PlayerRec))] (⟨77, 2⟩ : PlayerRec) =
      ([(77, ⟨77, 1⟩)], [((2 : Int), dupIdMsg)]) :=
  ⟨by decide, newPlayer_dup_keeps_existing [(77, ⟨77, 1⟩)] ⟨77, 2⟩ (by decide)⟩

/-- C9: Player::disconnect(msg) only enqueues a KickDisconnect packet on that
player's own connection: the chunk map is unchanged, no player is removed, and
every player keeps its uuid, eid, position, inventory and closed flag; the
targeted player's connection gains exactly the one KickDisconnect, every other
player is untouched entirely. -/
theorem playerDisconnect_frame (w : WorldSt) (eid : Int) (msg : String) :
    (playerDisconnect w eid msg).chunks = w.chunks ∧
    (playerDisconnect w eid msg).players.length = w.players.length ∧
    ∀ (i : Nat) (p : PlayerFull), w.players[i]? = some p →
      ∃ p2, (playerDisconnect w eid msg).players[i]? = some p2 ∧
        p2.uuid = p.uuid ∧ p2.eid = p.eid ∧ p2.posX = p.posX ∧ p2.posY = p.posY ∧
        p2.posZ = p.posZ ∧ p2.inv = p.inv ∧ p2.conn.closed = p.conn.closed ∧
        (p.eid = eid → p2.conn.sent = p.conn.sent ++ [CbPacketK.kickDisconnect msg]) ∧
        (p.eid ≠ eid → p2 = p) := by
  refine ⟨rfl, by simp [playerDisconnect], ?_⟩
  intro i p hp
  refine ⟨if p.eid = eid then
    { p with conn := p.conn.sendPacket (CbPacketK.kickDisconnect msg) } else p, ?_, ?_⟩
  · simp [playerDisconnect, List.getElem?_map, hp]
  · by_cases he : p.eid = eid
    · simp [he, ConnSt.sendPacket]
    · simp [he]

/-- Witness for playerDisconnect_frame at a concrete one-player world. -/
theorem playerDisconnect_frame_witness :
    ∃ p2,
      (playerDisconnect ⟨[⟨1, 5, 0, 0, 0, [], ⟨[], false⟩⟩], []⟩ 5 "bye").players[0]? =
        some p2 ∧
      p2.conn.sent = [CbPacketK.kickDisconnect "bye"] ∧ p2.conn.closed = false := by
  obtain ⟨p2, h1, h2⟩ :=
    (playerDisconnect_frame ⟨[⟨1, 5, 0, 0, 0, [], ⟨[], false⟩⟩], []⟩ 5 "bye").2.2 0
      ⟨1, 5, 0, 0, 0, [], ⟨[], false⟩⟩ rfl
  refine ⟨p2, h1, ?_, ?_⟩
  · have := h2.2.2.2.2.2.2.2.1 rfl
    simpa using this
  · exact h2.2.2.2.2.2.2.1

/-- C8: on the modelled TypeConverter with spec-well-formed generated tables,
id 0 (air) maps to 0 in both directions for blocks, items and entities;
converting with the latest version returns the input unchanged; and any id or
damage value with no table entry maps to 0. -/
theorem typeConverter_invariants (tc : TypeConverter) (latest ver id damage : Nat)
    (hair : airWellFormed tc) :
    block_to_new tc latest 0 ver = 0 ∧
    block_to_old tc latest 0 ver = 0 ∧
    item_to_new tc latest 0 damage ver = 0 ∧
    item_to_old tc latest 0 ver = (0, 0) ∧
    entity_to_new tc latest 0 ver = 0 ∧
    entity_to_old tc latest 0 ver = 0 ∧
    block_to_new tc latest id latest = id ∧
    block_to_old tc latest id latest = id ∧
    item_to_new tc latest id damage latest = id ∧
    item_to_old tc latest id latest = (id, 0) ∧
    entity_to_new tc latest id latest = id ∧
    entity_to_old tc latest id latest = id ∧
    ((tc.blocks.getD ver ⟨[], []⟩).to_new[id]? = none → id ≠ 0 → ver ≠ latest →
      block_to_new tc latest id ver = 0) ∧
    ((tc.blocks.getD ver ⟨[], []⟩).to_old[id]? = none → ver ≠ latest →
      block_to_old tc latest id ver = 0) ∧
    (∀ row, (tc.items.getD ver ⟨[], []⟩).to_new[id]? = some row → row[damage]? = none →
      id ≠ 0 → ver ≠ latest → item_to_new tc latest id damage ver = 0) ∧
    ((tc.items.getD ver ⟨[], []⟩).to_old[id]? = none → ver ≠ latest →
      item_to_old tc latest id ver = (0, 0)) ∧
    ((tc.entities.getD ver ⟨[], []⟩).to_new[id]? = none → id ≠ 0 → ver ≠ latest →
      entity_to_new tc latest id ver = 0) ∧
    ((tc.entities.getD ver ⟨[], []⟩).to_old[id]? = none → ver ≠ latest →
      entity_to_old tc latest id ver = 0) := by
  obtain ⟨hb, hi, he⟩ := hair
  refine ⟨rfl, ?_, rfl, ?_, rfl, ?_, ?_, ?_, ?_, ?_, ?_, ?_, ?_, ?_, ?_, ?_, ?_, ?_⟩
  · unfold block_to_old
    by_cases hv : ver = latest
    · simp [hv]
    · rw [if_neg hv]
      rcases hl : (tc.blocks.getD ver ⟨[], []⟩).to_old[0]? with _ | x
      · simp [hl]
      · have hmem : tc.blocks.getD ver ⟨[], []⟩ ∈ tc.blocks ∨
            tc.blocks.getD ver ⟨[], []⟩ = (⟨[], []⟩ : BlockVerTable) := by
          by_cases hlen : ver < tc.blocks.length
          · left
            rw [List.getD_eq_getElem?_getD, List.getElem?_eq_getElem hlen]
            exact List.getElem_mem hlen
          · right
            rw [List.getD_eq_getElem?_getD, List.getElem?_eq_none (by omega)]
            rfl
        rcases hmem with hmem | hmem
        · have := hb _ hmem
          rw [hl] at this
          simp at this
          simp [hl, this]
        · rw [hmem] at hl
          simp at hl
  · unfold item_to_old
    by_cases hv : ver = latest
    · simp [hv]
    · rw [if_neg hv]
      rcases hl : (tc.items.getD ver ⟨[], []⟩).to_old[0]? with _ | x
      · simp [hl]
      · have hmem : tc.items.getD ver ⟨[], []⟩ ∈ tc.items ∨
            tc.items.getD ver ⟨[], []⟩ = (⟨[], []⟩ : ItemVerTable) := by
          by_cases hlen : ver < tc.items.length
          · left
            rw [List.getD_eq_getElem?_getD, List.getElem?_eq_getElem hlen]
            exact List.getElem_mem hlen
          · right
            rw [List.getD_eq_getElem?_getD, List.getElem?_eq_none (by omega)]
            rfl
        rcases hmem with hmem | hmem
        · have := hi _ hmem
          rw [hl] at this
          simp at this
          simp [hl, this]
        · rw [hmem] at hl
          simp at hl
  · unfold entity_to_old
    by_cases hv : ver = latest
    · simp [hv]
    · rw [if_neg hv]
      rcases hl : (tc.entities.getD ver ⟨[], []⟩).to_old[0]? with _ | x
      · simp [hl]
      · have hmem : tc.entities.getD ver ⟨[], []⟩ ∈ tc.entities ∨
            tc.entities.getD ver ⟨[], []⟩ = (⟨[], []⟩ : EntityVerTable) := by
          by_cases hlen : ver < tc.entities.length
          · left
            rw [List.getD_eq_getElem?_getD, List.getElem?_eq_getElem hlen]
            exact List.getElem_mem hlen
          · right
            rw [List.getD_eq_getElem?_getD, List.getElem?_eq_none (by omega)]
            rfl
        rcases hmem with hmem | hmem
        · have := he _ hmem
          rw [hl] at this
          simp at this
          simp [hl, this]
        · rw [hmem] at hl
          simp at hl
  · by_cases h0 : id = 0
    · simp [block_to_new, h0]
    · simp [block_to_new, h0]
  · simp [block_to_old]
  · by_cases h0 : id = 0
    · simp [item_to_new, h0]
    · simp [item_to_new, h0]
  · simp [item_to_old]
  · by_cases h0 : id = 0
    · simp [entity_to_new, h0]
    · simp [entity_to_new, h0]
  · simp [entity_to_old]
  · intro hnone h0 hv
    unfold block_to_new
    rw [if_neg h0, if_neg hv, hnone]
  · intro hnone hv
    unfold block_to_old
    rw [if_neg hv, hnone]
  · intro row hrow hdmg h0 hv
    unfold item_to_new
    rw [if_neg h0, if_neg hv, hrow]
    simp [hdmg]
  · intro hnone hv
    unfold item_to_old
    rw [if_neg hv, hnone]
    rfl
  · intro hnone h0 hv
    unfold entity_to_new
    rw [if_neg h0, if_neg hv, hnone]
  · intro hnone hv
    unfold entity_to_old
    rw [if_neg hv, hnone]

/-- Witness for typeConverter_invariants at a concrete two-version converter. -/
theorem typeConverter_invariants_witness :
    airWellFormed ⟨[⟨[0, 5], [0, 7]⟩], [⟨[(0, 0), (3, 1)], [[0], [4, 9]]⟩], [⟨[0, 2], [0, 3]⟩]⟩ ∧
    block_to_new ⟨[⟨[0, 5], [0, 7]⟩], [⟨[(0, 0), (3, 1)], [[0], [4, 9]]⟩], [⟨[0, 2], [0, 3]⟩]⟩
      1 0 0 = 0 ∧
    block_to_old ⟨[⟨[0, 5], [0, 7]⟩], [⟨[(0, 0), (3, 1)], [[0], [4, 9]]⟩], [⟨[0, 2], [0, 3]⟩]⟩
      1 9 1 = 9 := by
  have hair : airWellFormed
      ⟨[⟨[0, 5], [0, 7]⟩], [⟨[(0, 0), (3, 1)], [[0], [4, 9]]⟩], [⟨[0, 2], [0, 3]⟩]⟩ := by
    refine ⟨?_, ?_, ?_⟩ <;> decide
  have h := typeConverter_invariants
    ⟨[⟨[0, 5], [0, 7]⟩], [⟨[(0, 0), (3, 1)], [[0], [4, 9]]⟩], [⟨[0, 2], [0, 3]⟩]⟩ 1 0 9 0 hair
  exact ⟨hair, h.1, h.2.2.2.2.2.2.2.1⟩

/-- C5 counterexample: a move from chunk (0,0) to (1,0) with r = 10. The
claim's load set is the column x = 0+10+1 = 11 with z in the inclusive range
[-10, 10] and its unload set the column x = -10 with the same z range, but the
tick does not load (11, 0) (it loads the already-visible column x = 10
instead) and does not unload (-10, 10). -/
theorem tickChunk_sets_counterexample :
    ¬ tickLoadSet ⟨0, 0⟩ ⟨1, 0⟩ ⟨11, 0⟩ ∧
    tickLoadSet ⟨0, 0⟩ ⟨1, 0⟩ ⟨10, 0⟩ ∧
    tickUnloadSet ⟨0, 0⟩ ⟨1, 0⟩ ⟨-10, 0⟩ ∧
    ¬ tickUnloadSet ⟨0, 0⟩ ⟨1, 0⟩ ⟨-10, 10⟩ := by
  decide

/-- C5 amended: the tick's view rectangles are half-open, 20 chunks wide. For
a move from c to c + (dx, 0) with dx > 0 the loaded set is exactly
[c.x + 10, c.x + dx + 10) x [c.z - 10, c.z + 10) and the unloaded set exactly
[c.x - 10, c.x + dx - 10) x [c.z - 10, c.z + 10); for a diagonal move with
0 < dx, dz <= 20 the two strips load exactly (new view) minus (old view),
unload exactly (old view) minus (new view), and the side strip and the
top/bottom strip never contain the same chunk, so every corner chunk is
handled exactly once. -/
theorem tickChunk_sets_halfopen :
    (∀ (c : ChunkPos) (dx : Int) (p : ChunkPos), 0 < dx →
      (tickLoadSet c ⟨c.x + dx, c.z⟩ p ↔
        c.x + 10 ≤ p.x ∧ p.x < c.x + dx + 10 ∧ c.z - 10 ≤ p.z ∧ p.z < c.z + 10) ∧
      (tickUnloadSet c ⟨c.x + dx, c.z⟩ p ↔
        c.x - 10 ≤ p.x ∧ p.x < c.x + dx - 10 ∧ c.z - 10 ≤ p.z ∧ p.z < c.z + 10)) ∧
    (∀ (c : ChunkPos) (dx dz : Int) (p : ChunkPos),
      0 < dx → dx ≤ 20 → 0 < dz → dz ≤ 20 →
      (tickLoadSet c ⟨c.x + dx, c.z + dz⟩ p ↔
        (inView20 ⟨c.x + dx, c.z + dz⟩ p ∧ ¬ inView20 c p)) ∧
      (tickUnloadSet c ⟨c.x + dx, c.z + dz⟩ p ↔
        (inView20 c p ∧ ¬ inView20 ⟨c.x + dx, c.z + dz⟩ p)) ∧
      ¬ (inChunkRect (sideStrips c ⟨c.x + dx, c.z + dz⟩ 10).1 p ∧
         inChunkRect (topStrips c ⟨c.x + dx, c.z + dz⟩ 10).1 p)) := by
  constructor
  · intro c dx p hdx
    simp only [tickLoadSet, tickUnloadSet, inChunkRect, sideStrips, topStrips]
    split_ifs <;> (dsimp only) <;> omega
  · intro c dx dz p hdx hdx2 hdz hdz2
    simp only [tickLoadSet, tickUnloadSet, inChunkRect, sideStrips, topStrips, inView20]
    split_ifs <;> (dsimp only) <;> omega

/-- Witness for tickChunk_sets_halfopen: the move from (0,0) to (1,0) loads
(10, 0), and the diagonal move from (0,0) to (1,1) loads (10, -9), which is in
the new view but not the old. -/
theorem tickChunk_sets_halfopen_witness :
    tickLoadSet ⟨0, 0⟩ ⟨1, 0⟩ ⟨10, 0⟩ ∧
    (tickLoadSet ⟨0, 0⟩ ⟨1, 1⟩ ⟨10, -9⟩ ↔
      (inView20 ⟨1, 1⟩ ⟨10, -9⟩ ∧ ¬ inView20 ⟨0, 0⟩ ⟨10, -9⟩)) := by
  constructor
  · have h := (tickChunk_sets_halfopen.1 ⟨0, 0⟩ 1 ⟨10, 0⟩ (by decide)).1
    rw [show (⟨0 + 1, 0⟩ : ChunkPos) = ⟨1, 0⟩ by rfl] at h
    rw [h]
    decide
  · have h := (tickChunk_sets_halfopen.2 ⟨0, 0⟩ 1 1 ⟨10, -9⟩ (by decide) (by decide)
      (by decide) (by decide)).1
    rw [show (⟨0 + 1, 0 + 1⟩ : ChunkPos) = ⟨1, 1⟩ by rfl] at h
    exact h

/-- C2 counterexample: a per-tick delta of exactly 8 blocks on one axis on a
post-1.8 version is encoded as EntityTeleport, not as a relative move, because
8 x 4096 = 32768 exceeds i16::MAX = 32767; likewise a delta of exactly 4 blocks
on 1.8, because 4 x 32 = 128 exceeds i8::MAX = 127. So the claimed inclusive
thresholds of 8 and 4 blocks are false on the code. -/
theorem encodeMovement_exact_threshold_counterexample :
    encodeMovement ProtocolVersion.v1_9 0 0 0 8 0 0 = MoveEnc.teleport 0 0 0 ∧
    encodeMovement ProtocolVersion.v1_8 0 0 0 4 0 0 = MoveEnc.teleport 0 0 0 ∧
    |(8 : ℚ)| ≤ 8 ∧ |(4 : ℚ)| ≤ 4 := by
  refine ⟨?_, ?_, by norm_num, by norm_num⟩
  · unfold encodeMovement
    rw [if_neg (by decide : ¬ (ProtocolVersion.v1_9 = ProtocolVersion.v1_8))]
    rw [if_pos (Or.inl (by rw [abs_of_nonneg (by norm_num : (0 : ℚ) ≤ 8 * 4096)]; norm_num))]
  · unfold encodeMovement
    rw [if_pos rfl]
    rw [if_pos (Or.inl (by rw [abs_of_nonneg (by norm_num : (0 : ℚ) ≤ 4 * 32)]; norm_num))]

/-- Helper: round-half-away-from-zero does not increase an integer absolute
bound. -/
theorem rustRound_abs_le (q : ℚ) (B : Nat) (h : |q| ≤ (B : ℚ)) :
    -(B : Int) ≤ rustRound q ∧ rustRound q ≤ (B : Int) := by
  rw [abs_le] at h
  unfold rustRound
  split_ifs with h0
  · constructor
    · rw [Int.le_floor]
      push_cast
      linarith
    · by_contra hgt
      push_neg at hgt
      have h1 : ((B : Int) + 1 : ℚ) ≤ (⌊q + 1 / 2⌋ : ℚ) := by
        exact_mod_cast hgt
      have h2 : (⌊q + 1 / 2⌋ : ℚ) ≤ q + 1 / 2 := Int.floor_le _
      push_cast at h1
      linarith
  · constructor
    · by_contra hlt
      push_neg at hlt
      have h1 : ((⌈q - 1 / 2⌉ : Int) : ℚ) ≤ (-(B : Int) - 1 : ℚ) := by
        exact_mod_cast Int.le_sub_one_of_lt hlt
      have h2 : q - 1 / 2 ≤ ((⌈q - 1 / 2⌉ : Int) : ℚ) := Int.le_ceil _
      push_cast at h1
      linarith
    · rw [Int.ceil_le]
      push_cast
      linarith

/-- C2 amended: for every observer, the per-tick deltas of a moving player are
scaled by 32 and rounded into the i8 fields d_x_v1_8..d_z_v1_8 when the
observer is on 1.8, and scaled by 4096 and rounded into the i16 fields
d_x_v1_9..d_z_v1_9 otherwise. A delta is encoded as a relative move exactly
when every scaled axis has magnitude at most i8::MAX = 127 (that is, delta
magnitude at most 127/32, strictly less than 4 blocks) on 1.8, respectively at
most i16::MAX = 32767 (at most 32767/4096, strictly less than 8 blocks) on
1.9+; if any axis is greater, EntityTeleport with the absolute position is
sent. The rounded scaled fields always fit the wire type's range. -/
theorem encodeMovement_scaled_bounds (ver : ProtocolVersion) (cx cy cz dx dy dz : ℚ) :
    (ver = ProtocolVersion.v1_8 →
      ((127 < |dx * 32| ∨ 127 < |dy * 32| ∨ 127 < |dz * 32|) →
        encodeMovement ver cx cy cz dx dy dz = MoveEnc.teleport cx cy cz) ∧
      (|dx * 32| ≤ 127 → |dy * 32| ≤ 127 → |dz * 32| ≤ 127 →
        encodeMovement ver cx cy cz dx dy dz =
          MoveEnc.relMove (rustRound (dx * 32)) (rustRound (dy * 32))
            (rustRound (dz * 32)) 0 0 0)) ∧
    (ver ≠ ProtocolVersion.v1_8 →
      ((32767 < |dx * 4096| ∨ 32767 < |dy * 4096| ∨ 32767 < |dz * 4096|) →
        encodeMovement ver cx cy cz dx dy dz = MoveEnc.teleport cx cy cz) ∧
      (|dx * 4096| ≤ 32767 → |dy * 4096| ≤ 32767 → |dz * 4096| ≤ 32767 →
        encodeMovement ver cx cy cz dx dy dz =
          MoveEnc.relMove 0 0 0 (rustRound (dx * 4096)) (rustRound (dy * 4096))
            (rustRound (dz * 4096)))) ∧
    (∀ (q : ℚ) (B : Nat), |q| ≤ (B : ℚ) → -(B : Int) ≤ rustRound q ∧ rustRound q ≤ (B : Int)) := by
  refine ⟨?_, ?_, fun q B h => rustRound_abs_le q B h⟩
  · intro h8
    subst h8
    constructor
    · intro hb
      unfold encodeMovement
      rw [if_pos rfl, if_pos hb]
    · intro h1 h2 h3
      unfold encodeMovement
      rw [if_pos rfl, if_neg (by simp only [not_or, not_lt]; exact ⟨h1, h2, h3⟩)]
  · intro hne
    constructor
    · intro hb
      unfold encodeMovement
      rw [if_neg hne, if_pos hb]
    · intro h1 h2 h3
      unfold encodeMovement
      rw [if_neg hne, if_neg (by simp only [not_or, not_lt]; exact ⟨h1, h2, h3⟩)]

/-- Witness for encodeMovement_scaled_bounds: a quarter-block move on 1.12.2
becomes RelEntityMove deltas of 1024 = 0.25 x 4096, and on 1.8 a delta of 0.25
becomes 8 = 0.25 x 32; a 9-block delta teleports on both. -/
theorem encodeMovement_scaled_bounds_witness :
    encodeMovement ProtocolVersion.v1_12_2 0 0 0 (1 / 4) 0 0 =
      MoveEnc.relMove 0 0 0 (rustRound (1 / 4 * 4096)) (rustRound (0 * 4096))
        (rustRound (0 * 4096)) ∧
    rustRound (1 / 4 * 4096) = 1024 ∧
    encodeMovement ProtocolVersion.v1_8 0 0 0 9 0 0 = MoveEnc.teleport 0 0 0 := by
  have hr : rustRound ((1 : ℚ) / 4 * 4096) = 1024 := by
    have he : (1 : ℚ) / 4 * 4096 = 1024 := by norm_num
    rw [he]
    unfold rustRound
    rw [if_pos (by norm_num)]
    rw [Int.floor_eq_iff]
    norm_num
  refine ⟨?_, hr, ?_⟩
  · refine ((encodeMovement_scaled_bounds ProtocolVersion.v1_12_2 0 0 0 (1 / 4) 0 0).2.1
      (by decide)).2 ?_ ?_ ?_
    · rw [abs_of_nonneg (by norm_num : (0 : ℚ) ≤ 1 / 4 * 4096)]
      norm_num
    · norm_num
    · norm_num
  · refine ((encodeMovement_scaled_bounds ProtocolVersion.v1_8 0 0 0 9 0 0).1 rfl).1
      (Or.inl ?_)
    rw [abs_of_nonneg (by norm_num : (0 : ℚ) ≤ 9 * 32)]
    norm_num

/-- Helper: the varint loop hits the negative five-byte sentinel when every
byte up to the cap has its continuation bit set. -/
theorem readVarintLoop_cont (bs : List Nat) : ∀ (i acc : Nat),
    (∀ b ∈ bs.take (5 - i), 128 ≤ b) → 5 ≤ bs.length + i → i < 5 →
    readVarintLoop bs i acc = (0, -1) := by
  induction bs with
  | nil =>
    intro i acc hb hlen hi
    simp at hlen
    omega
  | cons b rest ih =>
    intro i acc hb hlen hi
    have hbmem : b ∈ (b :: rest).take (5 - i) := by
      have h1 : 1 ≤ 5 - i := by omega
      rcases hk : 5 - i with _ | k
      · omega
      · simp [List.take_succ_cons]
    have hbge : 128 ≤ b := hb b hbmem
    rw [readVarintLoop]
    rw [if_neg (by omega)]
    by_cases h5 : i + 1 = 5
    · rw [if_pos h5]
    · rw [if_neg h5]
      refine ih (i + 1) _ ?_ (by simp at hlen ⊢; omega) (by omega)
      intro x hx
      refine hb x ?_
      have hk : 5 - i = (5 - (i + 1)) + 1 := by omega
      rw [hk, List.take_succ_cons]
      exact List.mem_cons_of_mem _ hx

/-- Helper: the varint loop reports zero consumed bytes when the input ends
before the cap with every byte's continuation bit set. -/
theorem readVarintLoop_incomplete (bs : List Nat) : ∀ (i acc : Nat),
    (∀ b ∈ bs, 128 ≤ b) → bs.length + i < 5 →
    readVarintLoop bs i acc = (0, 0) := by
  induction bs with
  | nil =>
    intro i acc _ _
    rfl
  | cons b rest ih =>
    intro i acc hb hlen
    have hbge : 128 ≤ b := hb b (List.mem_cons_self _ _)
    rw [readVarintLoop]
    rw [if_neg (by omega)]
    rw [if_neg (by simp at hlen; omega)]
    refine ih (i + 1) _ (fun x hx => hb x (List.mem_cons_of_mem _ hx)) ?_
    simp at hlen ⊢
    omega

/-- C6: on the frame read path, a length varint longer than five bytes yields
an InvalidData error; an incomplete varint yields Ok(None) with the buffered
bytes intact; a length exceeding the bytes currently buffered yields Ok(None)
with the buffered bytes intact; and a zero-byte socket read yields a
ConnectionAborted error. -/
theorem readFrame_errors (compression : Nat) (inflate : List Nat → Option (List Nat)) :
    (∀ buf : List Nat, 5 ≤ buf.length → (∀ b ∈ buf.take 5, 128 ≤ b) →
      readFrame compression inflate buf = Except.error ReadErr.invalidData) ∧
    (∀ buf : List Nat, buf.length < 5 → (∀ b ∈ buf, 128 ≤ b) →
      readFrame compression inflate buf = Except.ok (none, buf)) ∧
    (∀ (buf : List Nat) (len rd : Int), read_varint buf = (len, rd) → 0 < rd →
      (buf.length : Int) < len →
      readFrame compression inflate buf = Except.ok (none, buf)) ∧
    (∀ buffered : List Nat, pollRead [] buffered = Except.error ReadErr.connectionAborted) := by
  refine ⟨?_, ?_, ?_, fun buffered => rfl⟩
  · intro buf h5 hbytes
    have hv : read_varint buf = (0, -1) := by
      unfold read_varint
      refine readVarintLoop_cont buf 0 0 ?_ (by omega) (by omega)
      simpa using hbytes
    unfold readFrame
    rw [hv]
    rw [if_pos (by norm_num : ((0 : Int), (-1 : Int)).2 < 0)]
  · intro buf h5 hbytes
    have hv : read_varint buf = (0, 0) := by
      unfold read_varint
      exact readVarintLoop_incomplete buf 0 0 hbytes (by omega)
    unfold readFrame
    rw [hv]
    rw [if_neg (by norm_num : ¬ ((0 : Int), (0 : Int)).2 < 0)]
    rw [if_pos (Or.inl (by norm_num : ((0 : Int), (0 : Int)).2 = 0))]
  · intro buf len rd hv hrd hlen
    unfold readFrame
    rw [hv]
    dsimp only
    rw [if_neg (by omega)]
    rw [if_pos (Or.inr hlen)]

/-- Witness for readFrame_errors at concrete buffers: five continuation bytes
error out, a single continuation byte and a length prefix larger than the
buffer both yield None without consuming, and an empty read aborts. -/
theorem readFrame_errors_witness :
    readFrame 0 (fun _ => none) [130, 130, 130, 130, 130] =
      Except.error ReadErr.invalidData ∧
    readFrame 0 (fun _ => none) [130] = Except.ok (none, [130]) ∧
    readFrame 0 (fun _ => none) [5, 1] = Except.ok (none, [5, 1]) ∧
    pollRead [] [7] = Except.error ReadErr.connectionAborted := by
  have h := readFrame_errors 0 (fun _ => none)
  exact ⟨h.1 _ (by decide) (by decide), h.2.1 _ (by decide) (by decide),
    h.2.2.1 _ 5 1 rfl (by decide) (by decide), h.2.2.2 [7]⟩

/-- C7 counterexample: with compression enabled, a frame whose leading varint
says the inflated length is 9 but whose zlib inflation yields 3 bytes is still
parsed and returned Ok: JavaStreamReader::read performs no check that the
inflated length equals the leading varint. -/
theorem readFrame_no_length_check_counterexample :
    readFrame 256 (fun _ => some [1, 2, 3]) [2, 9, 99] =
      Except.ok (some [1, 2, 3], []) ∧
    (([1, 2, 3] : List Nat).length : Int) ≠ 9 := by
  exact ⟨rfl, by decide⟩

/-- C7 amended: with compression enabled on the reader, for every framed
payload, if the leading varint U is 0 the remaining bytes are parsed
uncompressed; otherwise the remainder is zlib-inflated, a zlib failure is
InvalidData, and whatever byte sequence the inflation yields is parsed
directly: the reader does not compare the inflated length with U. -/
theorem readFrame_compressed_paths (compression : Nat)
    (inflate : List Nat → Option (List Nat)) (buf vec body buf2 : List Nat)
    (len rd u c2 : Int)
    (hcomp : compression ≠ 0)
    (hv : read_varint buf = (len, rd))
    (hrd : 0 < rd)
    (hlen : len ≤ (buf.length : Int))
    (hvec : vec = (buf.drop rd.toNat).take len.toNat ++
      List.replicate (len.toNat - (buf.drop rd.toNat).length) 0)
    (hu : read_varint vec = (u, c2))
    (hbody : body = vec.drop c2.toNat)
    (hbuf2 : buf2 = (buf.drop rd.toNat).drop len.toNat) :
    (u = 0 → readFrame compression inflate buf = Except.ok (some body, buf2)) ∧
    (u ≠ 0 → inflate body = none →
      readFrame compression inflate buf = Except.error ReadErr.invalidData) ∧
    (∀ d, u ≠ 0 → inflate body = some d →
      readFrame compression inflate buf = Except.ok (some d, buf2)) := by
  subst hvec hbody hbuf2
  unfold readFrame
  rw [hv]
  dsimp only
  rw [if_neg (by omega)]
  rw [if_neg (by push_neg; exact ⟨by omega, hlen⟩)]
  rw [if_pos hcomp]
  rw [hu]
  dsimp only
  refine ⟨?_, ?_, ?_⟩
  · intro h0
    rw [if_pos h0]
  · intro h0 hinf
    rw [if_neg h0, hinf]
  · intro d h0 hinf
    rw [if_neg h0, hinf]

/-- Witness for readFrame_compressed_paths: the U = 0 frame [3,0,7,8] parses
its own bytes, and the U = 9 frame [2,9,99] parses whatever inflate returned. -/
theorem readFrame_compressed_paths_witness :
    readFrame 256 (fun _ => some [1, 2, 3]) [3, 0, 7, 8] = Except.ok (some [7, 8], []) ∧
    readFrame 256 (fun _ => none) [2, 9, 99] = Except.error ReadErr.invalidData := by
  constructor
  · exact (readFrame_compressed_paths 256 (fun _ => some [1, 2, 3]) [3, 0, 7, 8]
      [0, 7, 8] [7, 8] [] 3 1 0 1 (by decide) rfl (by decide) (by decide) rfl rfl rfl
      rfl).1 rfl
  · exact (readFrame_compressed_paths 256 (fun _ => none) [2, 9, 99]
      [9, 99] [99] [] 2 1 9 1 (by decide) rfl (by decide) (by decide) rfl rfl rfl
      rfl).2.1 (by decide) rfl

/-- C3: evaluation of SkyLightChunk::update on a three-cell transparent
horizontal chain at y = 5 (all other cells opaque), seeded at (0,5,0) whose
stored sky light is 14. The BFS quiesces (empty queue well within 16 rounds),
and the cell at horizontal distance 2 stores 13, not the 14 - 2 = 12 required
by the level - 1 propagation rule: the source re-enqueues horizontal neighbors
at the parent's own level. -/
theorem skyLight_horizontal_chain_eval :
    (skyLightUpdate
      ⟨fun _ => false,
        fun p => decide (p = ⟨0, 5, 0⟩ ∨ p = ⟨1, 5, 0⟩ ∨ p = ⟨2, 5, 0⟩),
        fun _ => 0⟩
      ⟨0, 5, 0⟩ (fun p => if p = ⟨0, 5, 0⟩ then 14 else 0) 16).2 = [] ∧
    (skyLightUpdate
      ⟨fun _ => false,
        fun p => decide (p = ⟨0, 5, 0⟩ ∨ p = ⟨1, 5, 0⟩ ∨ p = ⟨2, 5, 0⟩),
        fun _ => 0⟩
      ⟨0, 5, 0⟩ (fun p => if p = ⟨0, 5, 0⟩ then 14 else 0) 16).1 ⟨1, 5, 0⟩ = 13 ∧
    (skyLightUpdate
      ⟨fun _ => false,
        fun p => decide (p = ⟨0, 5, 0⟩ ∨ p = ⟨1, 5, 0⟩ ∨ p = ⟨2, 5, 0⟩),
        fun _ => 0⟩
      ⟨0, 5, 0⟩ (fun p => if p = ⟨0, 5, 0⟩ then 14 else 0) 16).1 ⟨2, 5, 0⟩ = 13 ∧
    (13 : Nat) ≠ 14 - 2 := by
  refine ⟨by decide, by decide, by decide, by decide⟩

/-- C4 counterexample: BlockLightChunk::update only floods outward from its
seed, so with an everywhere-transparent chunk whose prior grid stores 5 at
(5,0,5) and 0 everywhere else, updating at the far cell (0,0,0) (emission 0)
leaves the adjacent transparent pair (5,0,5) and (4,0,5) at stored lights 5
and 0: the claimed unconditional adjacency bound of 1 after any update call is
false without an assumption on the prior grid. -/
theorem blockLight_prior_grid_counterexample :
    adjacentPos ⟨5, 0, 5⟩ ⟨4, 0, 5⟩ ∧
    inChunkB ⟨5, 0, 5⟩ ∧ inChunkB ⟨4, 0, 5⟩ ∧
    blockPropagatable ⟨fun _ => true, fun _ => true, fun _ => 0⟩ ⟨5, 0, 5⟩ ∧
    blockPropagatable ⟨fun _ => true, fun _ => true, fun _ => 0⟩ ⟨4, 0, 5⟩ ∧
    blockLightUpdate ⟨fun _ => true, fun _ => true, fun _ => 0⟩ ⟨0, 0, 0⟩
      (fun p => if p = ⟨5, 0, 5⟩ then 5 else 0) ⟨5, 0, 5⟩ = 5 ∧
    blockLightUpdate ⟨fun _ => true, fun _ => true, fun _ => 0⟩ ⟨0, 0, 0⟩
      (fun p => if p = ⟨5, 0, 5⟩ then 5 else 0) ⟨4, 0, 5⟩ = 0 ∧
    ¬ (|(5 : Int) - (0 : Int)| ≤ 1) := by
  refine ⟨by decide, by decide, by decide, by decide, by decide, by decide, by decide,
    by decide⟩

/-- Helper: extensionality for chunk-relative positions. -/
theorem relPos_ext (u v : RelPos) (hx : u.x = v.x) (hy : u.y = v.y) (hz : u.z = v.z) :
    u = v := by
  cases u
  cases v
  simp_all

/-- Helper: stepping one face away always moves. -/
theorem faceOffset_ne (p : RelPos) (f : Face) : faceOffset p f ≠ p := by
  cases f <;> intro h
  · have := congrArg RelPos.y h
    simp [faceOffset, faceDelta] at this
  · have := congrArg RelPos.y h
    simp [faceOffset, faceDelta] at this
  · have := congrArg RelPos.z h
    simp [faceOffset, faceDelta] at this
  · have := congrArg RelPos.z h
    simp [faceOffset, faceDelta] at this
  · have := congrArg RelPos.x h
    simp [faceOffset, faceDelta] at this
  · have := congrArg RelPos.x h
    simp [faceOffset, faceDelta] at this

/-- Helper: the face-offset cell is adjacent. -/
theorem adjacentPos_offset (p : RelPos) (f : Face) : adjacentPos p (faceOffset p f) := by
  cases f
  · exact Or.inl rfl
  · exact Or.inr (Or.inl rfl)
  · exact Or.inr (Or.inr (Or.inl rfl))
  · exact Or.inr (Or.inr (Or.inr (Or.inl rfl)))
  · exact Or.inr (Or.inr (Or.inr (Or.inr (Or.inl rfl))))
  · exact Or.inr (Or.inr (Or.inr (Or.inr (Or.inr rfl))))

/-- Helper: adjacency is symmetric, by stepping back along the opposite face. -/
theorem adjacentPos_symm (a b : RelPos) (h : adjacentPos a b) : adjacentPos b a := by
  rcases h with h | h | h | h | h | h <;> subst h
  · refine Or.inr (Or.inl ?_)
    refine (relPos_ext _ _ ?_ ?_ ?_).symm <;> simp [faceOffset, faceDelta]
  · refine Or.inl ?_
    refine (relPos_ext _ _ ?_ ?_ ?_).symm <;> simp [faceOffset, faceDelta]
  · refine Or.inr (Or.inr (Or.inr (Or.inl ?_)))
    refine (relPos_ext _ _ ?_ ?_ ?_).symm <;> simp [faceOffset, faceDelta]
  · refine Or.inr (Or.inr (Or.inl ?_))
    refine (relPos_ext _ _ ?_ ?_ ?_).symm <;> simp [faceOffset, faceDelta]
  · refine Or.inr (Or.inr (Or.inr (Or.inr (Or.inr ?_))))
    refine (relPos_ext _ _ ?_ ?_ ?_).symm <;> simp [faceOffset, faceDelta]
  · refine Or.inr (Or.inr (Or.inr (Or.inr (Or.inl ?_))))
    refine (relPos_ext _ _ ?_ ?_ ?_).symm <;> simp [faceOffset, faceDelta]

/-- Helper: every adjacent cell is reached by one of the six scanned faces. -/
theorem adjacent_mem_directions (a b : RelPos) (h : adjacentPos a b) :
    ∃ f ∈ lightDirections, faceOffset a f = b := by
  rcases h with h | h | h | h | h | h <;> subst h
  · exact ⟨Face.top, by simp [lightDirections], rfl⟩
  · exact ⟨Face.bottom, by simp [lightDirections], rfl⟩
  · exact ⟨Face.north, by simp [lightDirections], rfl⟩
  · exact ⟨Face.south, by simp [lightDirections], rfl⟩
  · exact ⟨Face.east, by simp [lightDirections], rfl⟩
  · exact ⟨Face.west, by simp [lightDirections], rfl⟩

/-- Helper: what a successful checked_add returns. -/
theorem checkedAdd_some (p : RelPos) (f : Face) (q : RelPos)
    (h : p.checkedAdd f = some q) :
    q = faceOffset p f ∧ 0 ≤ q.x ∧ q.x ≤ 15 ∧ 0 ≤ q.z ∧ q.z ≤ 15 := by
  unfold RelPos.checkedAdd at h
  split_ifs at h with hb
  cases h
  exact ⟨rfl, hb.1, hb.2.1, hb.2.2.1, hb.2.2.2⟩

/-- Helper: checked_add succeeds on an in-column target. -/
theorem checkedAdd_of_inChunk (p : RelPos) (f : Face) (h : inChunkB (faceOffset p f)) :
    p.checkedAdd f = some (faceOffset p f) := by
  unfold RelPos.checkedAdd
  rw [if_pos ⟨h.1, h.2.1, h.2.2.2.2.1, h.2.2.2.2.2⟩]

/-- Helper: effect of visiting one direction in the block-light BFS. The grid
only grows; the accumulated queue only grows; any pushed element carries level
l - 1 at a propagatable, in-chunk cell adjacent to the source; and a cell whose
light changed was set to l - 1, pushed, and is a propagatable in-chunk neighbor
of the source (in particular not the source itself). -/
theorem blockVisit_props (c : BlockData) (s : RelPos) (l : Nat)
    (st : Light × List (RelPos × Nat)) (dir : Face) :
    (∀ q, st.1 q ≤ (blockVisit c s l st dir).1 q) ∧
    (∀ e ∈ st.2, e ∈ (blockVisit c s l st dir).2) ∧
    (∀ e ∈ (blockVisit c s l st dir).2, e ∈ st.2 ∨
      (e.2 + 1 = l ∧ blockPropagatable c e.1 ∧ inChunkB e.1 ∧ adjacentPos s e.1)) ∧
    (∀ q, (blockVisit c s l st dir).1 q ≠ st.1 q →
      ((blockVisit c s l st dir).1 q = l - 1 ∧ 1 ≤ l ∧
        (q, l - 1) ∈ (blockVisit c s l st dir).2 ∧
        blockPropagatable c q ∧ inChunkB q ∧ adjacentPos s q ∧ q ≠ s)) := by
  unfold blockVisit
  rcases hca : s.checkedAdd dir with _ | np
  · exact ⟨fun q => le_refl _, fun e he => he, fun e he => Or.inl he,
      fun q hq => absurd rfl hq⟩
  · obtain ⟨hnp, hx0, hx15, hz0, hz15⟩ := checkedAdd_some s dir np hca
    dsimp only
    by_cases hy : np.y < 0 ∨ 255 < np.y
    · rw [if_pos hy]
      exact ⟨fun q => le_refl _, fun e he => he, fun e he => Or.inl he,
        fun q hq => absurd rfl hq⟩
    · rw [if_neg hy]
      by_cases htr : (c.isAir np || c.transparent np) = true
      · rw [if_pos htr]
        by_cases hcond : 1 ≤ l ∧ st.1 np < l - 1
        · rw [if_pos hcond]
          have hprop : blockPropagatable c np := by
            unfold blockPropagatable
            exact Bool.or_eq_true_iff.1 htr
          have hin : inChunkB np := by
            push_neg at hy
            exact ⟨hx0, hx15, by omega, by omega, hz0, hz15⟩
          have hadj : adjacentPos s np := hnp ▸ adjacentPos_offset s dir
          have hne : np ≠ s := hnp ▸ faceOffset_ne s dir
          refine ⟨?_, ?_, ?_, ?_⟩
          · intro q
            dsimp only
            unfold setLight
            by_cases hq : q = np
            · subst hq
              rw [if_pos rfl]
              omega
            · rw [if_neg hq]
          · intro e he
            exact List.mem_append_left _ he
          · intro e he
            rcases List.mem_append.1 he with he | he
            · exact Or.inl he
            · have : e = (np, l - 1) := List.mem_singleton.1 he
              subst this
              exact Or.inr ⟨by omega, hprop, hin, hadj⟩
          · intro q hq
            dsimp only at hq ⊢
            have hqnp : q = np := by
              by_contra hne2
              apply hq
              unfold setLight
              rw [if_neg hne2]
            subst hqnp
            refine ⟨?_, hcond.1, ?_, hprop, hin, hadj, hne⟩
            · unfold setLight
              rw [if_pos rfl]
            · exact List.mem_append_right _ (List.mem_singleton.2 rfl)
        · rw [if_neg hcond]
          exact ⟨fun q => le_refl _, fun e he => he, fun e he => Or.inl he,
            fun q hq => absurd rfl hq⟩
      · rw [if_neg htr]
        exact ⟨fun q => le_refl _, fun e he => he, fun e he => Or.inl he,
          fun q hq => absurd rfl hq⟩

/-- Helper: the visit properties carried through a fold over any direction
list. -/
theorem blockFold_props (c : BlockData) (s : RelPos) (l : Nat) :
    ∀ (fs : List Face) (st : Light × List (RelPos × Nat)),
    (∀ q, st.1 q ≤ (fs.foldl (blockVisit c s l) st).1 q) ∧
    (∀ e ∈ st.2, e ∈ (fs.foldl (blockVisit c s l) st).2) ∧
    (∀ e ∈ (fs.foldl (blockVisit c s l) st).2, e ∈ st.2 ∨
      (e.2 + 1 = l ∧ blockPropagatable c e.1 ∧ inChunkB e.1 ∧ adjacentPos s e.1)) ∧
    (∀ q, (fs.foldl (blockVisit c s l) st).1 q ≠ st.1 q →
      ((fs.foldl (blockVisit c s l) st).1 q = l - 1 ∧ 1 ≤ l ∧
        (q, l - 1) ∈ (fs.foldl (blockVisit c s l) st).2 ∧
        blockPropagatable c q ∧ inChunkB q ∧ adjacentPos s q ∧ q ≠ s)) := by
  intro fs
  induction fs with
  | nil =>
    intro st
    exact ⟨fun q => le_refl _, fun e he => he, fun e he => Or.inl he,
      fun q hq => absurd rfl hq⟩
  | cons f t ih =>
    intro st
    rw [List.foldl_cons]
    obtain ⟨v1, v2, v3, v4⟩ := blockVisit_props c s l st f
    obtain ⟨i1, i2, i3, i4⟩ := ih (blockVisit c s l st f)
    refine ⟨?_, ?_, ?_, ?_⟩
    · intro q
      exact le_trans (v1 q) (i1 q)
    · intro e he
      exact i2 e (v2 e he)
    · intro e he
      rcases i3 e he with he2 | hnew
      · rcases v3 e he2 with he3 | hnew
        · exact Or.inl he3
        · exact Or.inr hnew
      · exact Or.inr hnew
    · intro q hq
      by_cases hmid :
          (t.foldl (blockVisit c s l) (blockVisit c s l st f)).1 q =
            (blockVisit c s l st f).1 q
      · obtain ⟨ha1, ha2, ha3, ha4, ha5, ha6, ha7⟩ :=
          v4 q (fun hc => hq (hmid.trans hc))
        exact ⟨hmid.trans ha1, ha2, i2 _ ha3, ha4, ha5, ha6, ha7⟩
      · exact i4 q hmid

/-- Helper: after the fold over a direction list containing the face towards a
propagatable in-chunk neighbor, that neighbor's stored light is at least
l - 1. -/
theorem blockFold_fix (c : BlockData) (s : RelPos) (l : Nat) :
    ∀ (fs : List Face) (st : Light × List (RelPos × Nat)) (f : Face),
    f ∈ fs → inChunkB (faceOffset s f) → blockPropagatable c (faceOffset s f) →
    l - 1 ≤ (fs.foldl (blockVisit c s l) st).1 (faceOffset s f) := by
  intro fs
  induction fs with
  | nil =>
    intro st f hf
    exact absurd hf (List.not_mem_nil f)
  | cons g t ih =>
    intro st f hf hin hprop
    rw [List.foldl_cons]
    rcases List.mem_cons.1 hf with hfg | hft
    · subst hfg
      have hstep : l - 1 ≤ (blockVisit c s l st f).1 (faceOffset s f) := by
        obtain ⟨hx0, hx15, hy0, hy255, hz0, hz15⟩ := hin
        unfold blockVisit
        rw [checkedAdd_of_inChunk s f ⟨hx0, hx15, hy0, hy255, hz0, hz15⟩]
        dsimp only
        rw [if_neg (by omega)]
        rw [if_pos (Bool.or_eq_true_iff.2 hprop)]
        by_cases hcond : 1 ≤ l ∧ st.1 (faceOffset s f) < l - 1
        · rw [if_pos hcond]
          dsimp only
          unfold setLight
          rw [if_pos rfl]
        · rw [if_neg hcond]
          omega
      exact le_trans hstep ((blockFold_props c s l t (blockVisit c s l st f)).1 _)
    · exact ih (blockVisit c s l st g) f hft hin hprop

/-- Helper: effect of processing one whole queue element (source s, level l) of
BlockLightChunk::update, including the write to the seed cell on line 28 of
light/mod.rs. Requires that l does not exceed the seed's stored light unless
the element IS the seed element (true of every element the BFS ever processes). -/
theorem blockElem_props (c : BlockData) (seed : RelPos) (st : Light × List (RelPos × Nat))
    (s : RelPos) (l : Nat) (hline : l ≤ st.1 seed ∨ s = seed) :
    (∀ q, st.1 q ≤ (blockElem c seed st (s, l)).1 q) ∧
    (∀ e ∈ st.2, e ∈ (blockElem c seed st (s, l)).2) ∧
    (∀ e ∈ (blockElem c seed st (s, l)).2, e ∈ st.2 ∨
      (e.2 + 1 = l ∧ blockPropagatable c e.1 ∧ inChunkB e.1)) ∧
    (blockElem c seed st (s, l)).1 seed = max (st.1 seed) l ∧
    (∀ q, (blockElem c seed st (s, l)).1 q ≠ st.1 q →
      (q = seed ∧ (blockElem c seed st (s, l)).1 q = l) ∨
      ((blockElem c seed st (s, l)).1 q = l - 1 ∧ 1 ≤ l ∧
        (q, l - 1) ∈ (blockElem c seed st (s, l)).2 ∧ blockPropagatable c q ∧
        inChunkB q ∧ adjacentPos s q)) ∧
    (∀ b, adjacentPos s b → inChunkB b → blockPropagatable c b →
      l - 1 ≤ (blockElem c seed st (s, l)).1 b) := by
  by_cases hl28 : st.1 seed < l
  · rcases hline with hline | hseed
    · omega
    subst hseed
    have hrw : blockElem c s st (s, l) =
        lightDirections.foldl (blockVisit c s l) (setLight st.1 s l, st.2) := by
      unfold blockElem
      dsimp only
      rw [if_pos hl28]
    rw [hrw]
    obtain ⟨f1, f2, f3, f4⟩ :=
      blockFold_props c s l lightDirections (setLight st.1 s l, st.2)
    have hmono0 : ∀ q, st.1 q ≤ (setLight st.1 s l, st.2).1 q := by
      intro q
      dsimp only
      unfold setLight
      by_cases hq : q = s
      · subst hq
        rw [if_pos rfl]
        omega
      · rw [if_neg hq]
    have hFseed : (lightDirections.foldl (blockVisit c s l)
        (setLight st.1 s l, st.2)).1 s = l := by
      by_cases hch : (lightDirections.foldl (blockVisit c s l)
          (setLight st.1 s l, st.2)).1 s = (setLight st.1 s l, st.2).1 s
      · rw [hch]
        dsimp only
        unfold setLight
        rw [if_pos rfl]
      · obtain ⟨_, _, _, _, _, _, hne⟩ := f4 s hch
        exact absurd rfl hne
    refine ⟨?_, ?_, ?_, ?_, ?_, ?_⟩
    · intro q
      exact le_trans (hmono0 q) (f1 q)
    · intro e he
      exact f2 e he
    · intro e he
      rcases f3 e he with he | hnew
      · exact Or.inl he
      · exact Or.inr ⟨hnew.1, hnew.2.1, hnew.2.2.1⟩
    · rw [hFseed, Nat.max_eq_right (Nat.le_of_lt hl28)]
    · intro q hq
      by_cases hqs : q = s
      · subst hqs
        exact Or.inl ⟨rfl, hFseed⟩
      · have hst1 : (setLight st.1 s l, st.2).1 q = st.1 q := by
          dsimp only
          unfold setLight
          rw [if_neg hqs]
        have hchanged : (lightDirections.foldl (blockVisit c s l)
            (setLight st.1 s l, st.2)).1 q ≠ (setLight st.1 s l, st.2).1 q := by
          rw [hst1]
          exact hq
        obtain ⟨ha1, ha2, ha3, ha4, ha5, ha6, _⟩ := f4 q hchanged
        exact Or.inr ⟨ha1, ha2, ha3, ha4, ha5, ha6⟩
    · intro b hadj hin hprop
      obtain ⟨f, hfmem, hfo⟩ := adjacent_mem_directions s b hadj
      rw [← hfo] at hin hprop ⊢
      exact blockFold_fix c s l lightDirections _ f hfmem hin hprop
  · have hrw : blockElem c seed st (s, l) =
        lightDirections.foldl (blockVisit c s l) st := by
      unfold blockElem
      dsimp only
      rw [if_neg hl28]
    rw [hrw]
    obtain ⟨f1, f2, f3, f4⟩ := blockFold_props c s l lightDirections st
    have hFseed : (lightDirections.foldl (blockVisit c s l) st).1 seed = st.1 seed := by
      by_cases hch : (lightDirections.foldl (blockVisit c s l) st).1 seed = st.1 seed
      · exact hch
      · obtain ⟨ha1, ha2, _, _, _, _, _⟩ := f4 seed hch
        have := f1 seed
        omega
    refine ⟨f1, f2, ?_, ?_, ?_, ?_⟩
    · intro e he
      rcases f3 e he with he | hnew
      · exact Or.inl he
      · exact Or.inr ⟨hnew.1, hnew.2.1, hnew.2.2.1⟩
    · rw [hFseed, Nat.max_eq_left (by omega : l ≤ st.1 seed)]
    · intro q hq
      obtain ⟨ha1, ha2, ha3, ha4, ha5, ha6, _⟩ := f4 q hq
      exact Or.inr ⟨ha1, ha2, ha3, ha4, ha5, ha6⟩
    · intro b hadj hin hprop
      obtain ⟨f, hfmem, hfo⟩ := adjacent_mem_directions s b hadj
      rw [← hfo] at hin hprop ⊢
      exact blockFold_fix c s l lightDirections _ f hfmem hin hprop

/-- Helper: one round of the block-light BFS preserves the pending invariant,
lowers the level bound of the pending queue by one, and leaves the seed's
stored light unchanged. -/
theorem blockRound_inv (c : BlockData) (seed : RelPos) (n : Nat) :
    ∀ (queue acc : List (RelPos × Nat)) (light : Light),
    lipPendingB c seed light (queue ++ acc) →
    (∀ e ∈ queue, e.2 ≤ n + 1) →
    (∀ e ∈ acc, e.2 ≤ n) →
    lipPendingB c seed (queue.foldl (blockElem c seed) (light, acc)).1
      (queue.foldl (blockElem c seed) (light, acc)).2 ∧
    (∀ e ∈ (queue.foldl (blockElem c seed) (light, acc)).2, e.2 ≤ n) ∧
    (queue.foldl (blockElem c seed) (light, acc)).1 seed = light seed ∧
    (∀ q, light q ≤ (queue.foldl (blockElem c seed) (light, acc)).1 q) := by
  intro queue
  induction queue with
  | nil =>
    intro acc light hlip hq ha
    exact ⟨hlip, ha, rfl, fun q => le_refl _⟩
  | cons e0 rest ih =>
    intro acc light hlip hq ha
    obtain ⟨s, l⟩ := e0
    rw [List.foldl_cons]
    have hl_le : l ≤ light seed :=
      hlip.1 (s, l) (List.mem_append_left _ (List.mem_cons_self _ _))
    obtain ⟨e1, e2, e3, e4, e5, e6⟩ := blockElem_props c seed (light, acc) s l (Or.inl hl_le)
    set st2 := blockElem c seed (light, acc) (s, l) with hst2
    have hseed2 : st2.1 seed = light seed := by
      rw [e4]
      exact Nat.max_eq_left hl_le
    have hlip2 : lipPendingB c seed st2.1 (rest ++ st2.2) := by
      constructor
      · intro x hx
        rw [hseed2]
        rcases List.mem_append.1 hx with hx | hx
        · exact hlip.1 x (List.mem_append_left _ (List.mem_cons_of_mem _ hx))
        · rcases e3 x hx with hx2 | hnew
          · exact hlip.1 x (List.mem_append_right _ hx2)
          · omega
      · intro a b hadj hina hinb hpa hpb hviol
        by_cases hcha : st2.1 a = light a
        · have hviol0 : light b + 1 < light a := by
            have hmb := e1 b
            dsimp only at hmb
            omega
          obtain ⟨ec, hecmem, heca, hecle⟩ :=
            hlip.2 a b hadj hina hinb hpa hpb hviol0
          rcases List.mem_append.1 hecmem with hc | hc
          · rcases List.mem_cons.1 hc with hc2 | hc2
            · exfalso
              subst hc2
              have hsa : s = a := heca
              subst hsa
              have hfix := e6 b hadj hinb hpb
              omega
            · refine ⟨ec, List.mem_append_left _ hc2, heca, ?_⟩
              rw [hcha]
              exact hecle
          · refine ⟨ec, List.mem_append_right _ (e2 ec hc), heca, ?_⟩
            rw [hcha]
            exact hecle
        · rcases e5 a hcha with ⟨haseed, _⟩ | ⟨hval, hl1, hmem, _, _, _⟩
          · exfalso
            apply hcha
            rw [haseed]
            exact hseed2
          · refine ⟨(a, l - 1), List.mem_append_right _ hmem, rfl, ?_⟩
            rw [hval]
    have hlev_rest : ∀ x ∈ rest, x.2 ≤ n + 1 :=
      fun x hx => hq x (List.mem_cons_of_mem _ hx)
    have hlev_acc2 : ∀ x ∈ st2.2, x.2 ≤ n := by
      intro x hx
      rcases e3 x hx with hx2 | hnew
      · exact ha x hx2
      · have hlq : l ≤ n + 1 := hq (s, l) (List.mem_cons_self _ _)
        omega
    obtain ⟨ih1, ih2, ih3, ih4⟩ := ih st2.2 st2.1 hlip2 hlev_rest hlev_acc2
    refine ⟨ih1, ih2, ?_, ?_⟩
    · rw [ih3, hseed2]
    · intro q
      exact le_trans (e1 q) (ih4 q)

/-- Helper: running the block-light BFS with enough fuel for the pending
levels yields an adjacency-Lipschitz grid with the seed's light unchanged. The
base case needs no quiescence argument: a pending bound of zero cannot cover a
violation, whose covering level is at least two. -/
theorem blockRounds_lip (c : BlockData) (seed : RelPos) :
    ∀ (n : Nat) (light : Light) (queue : List (RelPos × Nat)),
    lipPendingB c seed light queue →
    (∀ e ∈ queue, e.2 ≤ n) →
    lightLipB c (blockRounds c seed n light queue).1 ∧
    (blockRounds c seed n light queue).1 seed = light seed := by
  intro n
  induction n with
  | zero =>
    intro light queue hlip hlev
    simp only [blockRounds]
    constructor
    · intro a b hadj hina hinb hpa hpb
      by_contra hcon
      push_neg at hcon
      obtain ⟨ec, hmem, _, hle⟩ := hlip.2 a b hadj hina hinb hpa hpb hcon
      have := hlev ec hmem
      omega
    · trivial
  | succ n ih =>
    intro light queue hlip hlev
    by_cases hempty : queue.isEmpty
    · have hqnil : queue = [] := by
        cases queue with
        | nil => rfl
        | cons x t => simp [List.isEmpty] at hempty
      subst hqnil
      rw [blockRounds,
        if_pos (show (([] : List (RelPos × Nat)).isEmpty = true) from rfl)]
      constructor
      · intro a b hadj hina hinb hpa hpb
        by_contra hcon
        push_neg at hcon
        obtain ⟨ec, hmem, _, _⟩ := hlip.2 a b hadj hina hinb hpa hpb hcon
        exact absurd hmem (List.not_mem_nil ec)
      · rfl
    · rw [blockRounds, if_neg hempty]
      dsimp only
      simp only [blockRound]
      have hround := blockRound_inv c seed n queue [] light
        (by rw [List.append_nil]; exact hlip) hlev
        (fun x hx => absurd hx (List.not_mem_nil x))
      obtain ⟨r1, r2, r3, r4⟩ := hround
      obtain ⟨p1, p2⟩ := ih _ _ r1 r2
      refine ⟨p1, ?_⟩
      rw [p2, r3]

/-- C4 amended: provided the prior stored grid already satisfies the adjacency
invariant on transparent in-chunk pairs and the seed block's emission is at
most 15 (the 4-bit light range), after BlockLightChunk::update(chunk, pos) the
BFS has quiesced and every pair of adjacent transparent cells inside the chunk
satisfies |light(a) - light(b)| <= 1, and the seeded cell pos ends with light
equal to its block's emission value whenever that exceeds its prior light. -/
theorem blockLightUpdate_invariant (c : BlockData) (pos : RelPos) (g : Light)
    (hE : c.emitLight pos ≤ 15)
    (hg : lightLipB c g) :
    (∀ a b, adjacentPos a b → inChunkB a → inChunkB b → blockPropagatable c a →
      blockPropagatable c b →
      |(blockLightUpdate c pos g a : Int) - (blockLightUpdate c pos g b : Int)| ≤ 1) ∧
    (g pos < c.emitLight pos → blockLightUpdate c pos g pos = c.emitLight pos) := by
  obtain ⟨e1, e2, e3, e4, e5, e6⟩ :=
    blockElem_props c pos (g, []) pos (c.emitLight pos) (Or.inr rfl)
  set E := c.emitLight pos with hEdef
  set st := blockElem c pos (g, []) (pos, E) with hstdef
  have h16 : blockLightUpdate c pos g = (blockRounds c pos 15 st.1 st.2).1 := rfl
  have hseed : st.1 pos = max (g pos) E := e4
  have hlip : lipPendingB c pos st.1 st.2 := by
    constructor
    · intro x hx
      rcases e3 x hx with hx2 | hnew
      · exact absurd hx2 (List.not_mem_nil x)
      · rw [hseed]
        omega
    · intro a b hadj hina hinb hpa hpb hviol
      by_cases hcha : st.1 a = g a
      · exfalso
        have hmb := e1 b
        dsimp only at hmb
        have := hg a b hadj hina hinb hpa hpb
        omega
      · rcases e5 a hcha with ⟨haseed, hval⟩ | ⟨hval, hl1, hmem, _, _, _⟩
        · exfalso
          subst haseed
          have hfix := e6 b hadj hinb hpb
          omega
        · exact ⟨(a, E - 1), hmem, rfl, by rw [hval]⟩
  have hlev : ∀ x ∈ st.2, x.2 ≤ 15 := by
    intro x hx
    rcases e3 x hx with hx2 | hnew
    · exact absurd hx2 (List.not_mem_nil x)
    · omega
  obtain ⟨p1, p2⟩ := blockRounds_lip c pos 15 st.1 st.2 hlip hlev
  constructor
  · intro a b hadj hina hinb hpa hpb
    have h1 := p1 a b hadj hina hinb hpa hpb
    have h2 := p1 b a (adjacentPos_symm a b hadj) hinb hina hpb hpa
    rw [h16]
    rw [abs_le]
    constructor <;> omega
  · intro hlt
    rw [h16, p2, hseed]
    exact Nat.max_eq_right (Nat.le_of_lt hlt)

/-- Witness for blockLightUpdate_invariant: a torch of emission 14 at (3,64,3)
in an all-transparent chunk with an all-zero prior grid ends at light 14, and
the pair with its neighbor (3,64,4) satisfies the adjacency bound. -/
theorem blockLightUpdate_invariant_witness :
    |(blockLightUpdate ⟨fun _ => true, fun _ => true,
        fun p => if p = ⟨3, 64, 3⟩ then 14 else 0⟩ ⟨3, 64, 3⟩ (fun _ => 0) ⟨3, 64, 3⟩ : Int) -
      (blockLightUpdate ⟨fun _ => true, fun _ => true,
        fun p => if p = ⟨3, 64, 3⟩ then 14 else 0⟩ ⟨3, 64, 3⟩ (fun _ => 0) ⟨3, 64, 4⟩ : Int)| ≤ 1 ∧
    blockLightUpdate ⟨fun _ => true, fun _ => true,
      fun p => if p = ⟨3, 64, 3⟩ then 14 else 0⟩ ⟨3, 64, 3⟩ (fun _ => 0) ⟨3, 64, 3⟩ = 14 := by
  have h := blockLightUpdate_invariant
    ⟨fun _ => true, fun _ => true, fun p => if p = ⟨3, 64, 3⟩ then 14 else 0⟩
    ⟨3, 64, 3⟩ (fun _ => 0) (by decide)
    (by intro a b _ _ _ _ _; exact Nat.zero_le _)
  refine ⟨h.1 ⟨3, 64, 3⟩ ⟨3, 64, 4⟩ (by decide) (by decide) (by decide) (by decide)
    (by decide), ?_⟩
  exact (h.2 (by decide)).trans (by decide)

end Bamboo
